import Mathlib

/-!
Verification development for the bitlab-core transaction engine.

Rust strings are embedded as lists of UTF-8 bytes (`List Nat`, each entry a
byte value), byte buffers as `List Nat`, and machine integers as `Nat`
(widths noted where they matter). Fallible operations return explicit
result types; a Rust panic (out-of-bounds indexing, byte-slicing inside a
multi-byte character) is a distinguished `panicked` outcome. Calls into the
`bitcoin` / `secp256k1` dependency whose internals are outside this
repository (outpoint parsing, script hex decoding, address decoding,
public-key derivation, base58 address rendering) are abstracted as fields
of a `LibEnv` record; the consensus transaction serialization format and
the secp256k1 scalar-range check are modelled concretely from the
dependency's documented, well-known behavior because the claims evaluate
them on concrete inputs.
-/

namespace BitlabCore

/-! ## Hex codec — src/core/src/utils/encoding.rs -/

/-- ASCII whitespace bytes stripped by trimming. The source calls
`str::trim`, which strips Unicode whitespace; the non-ASCII whitespace
characters are multi-byte and are not modelled here, so this model is
faithful on every string whose surrounding whitespace is ASCII;
statements characterizing behavior over arbitrary strings therefore
restrict their quantifiers to ASCII inputs (see `allAscii`). -/
def isWsByte (b : Nat) : Bool :=
  b == 9 || b == 10 || b == 11 || b == 12 || b == 13 || b == 32

/-- Strip leading and trailing ASCII whitespace bytes (models `str::trim`). -/
def trimAscii (s : List Nat) : List Nat :=
  ((s.dropWhile isWsByte).reverse.dropWhile isWsByte).reverse

/-- Value of an ASCII hex digit byte (0-9, a-f, A-F), if it is one. -/
def hexVal (b : Nat) : Option Nat :=
  if 48 ≤ b ∧ b ≤ 57 then some (b - 48)
  else if 97 ≤ b ∧ b ≤ 102 then some (b - 87)
  else if 65 ≤ b ∧ b ≤ 70 then some (b - 55)
  else none

/-- Whether a byte is an ASCII hex digit. -/
def isHexDigitByte (b : Nat) : Bool :=
  (hexVal b).isSome

/-- Result of `u8::from_str_radix(slice, 16)` on a two-byte slice: two hex
digits give their value, and a leading plus sign followed by one hex
digit is also accepted; a leading minus sign is not stripped for
unsigned types, so every minus form is rejected, as is everything
else. -/
def parseRadix16 (b1 b2 : Nat) : Option Nat :=
  match hexVal b1, hexVal b2 with
  | some h, some l => some (16 * h + l)
  | _, _ => if b1 = 43 then hexVal b2 else none

/-- UTF-8 continuation byte (0x80-0xBF): a position holding one is not a
character boundary, so a Rust byte slice ending there panics. -/
def isContByte (b : Nat) : Bool :=
  128 ≤ b && b < 192

/-- Outcome of `hex_to_bytes`: decoded bytes, an error `Result`, or a panic
(from slicing `&hex_str[i..i+2]` across a character boundary). -/
inductive HexResult where
  | ok (bytes : List Nat)
  | error
  | panicked
deriving DecidableEq, Repr

/-- Decode consecutive two-byte chunks, as the source's
`(0..len).step_by(2).map(|i| u8::from_str_radix(&hex_str[i..i+2], 16))`
with short-circuiting `collect::<Result<_,_>>()`. Before a chunk is
parsed, the slice is taken: if the byte just after the chunk is a UTF-8
continuation byte the slice end is not a character boundary and the
program panics. The single-byte case is unreachable under the even-length
guard in `hex_to_bytes`. -/
def hexPairs : List Nat → HexResult
  | [] => HexResult.ok []
  | [_] => HexResult.error
  | b1 :: b2 :: rest =>
    if (match rest with | r :: _ => isContByte r | [] => false) then
      HexResult.panicked
    else
      match parseRadix16 b1 b2 with
      | some v =>
        match hexPairs rest with
        | HexResult.ok vs => HexResult.ok (v :: vs)
        | r => r
      | none => HexResult.error

/-- Embedding of `hex_to_bytes`: trim surrounding whitespace, reject odd
length, then decode two-byte chunks. -/
def hex_to_bytes (s : List Nat) : HexResult :=
  if (trimAscii s).length % 2 ≠ 0 then HexResult.error
  else hexPairs (trimAscii s)

/-- Lowercase hex digit for a value below 16 (the `{:02x}` digit map). -/
def hexChar (v : Nat) : Nat :=
  if v < 10 then 48 + v else 87 + v

/-- Embedding of `bytes_to_hex`: each byte becomes two lowercase hex
digits, concatenated in order. The inputs are u8 values; the `% 256`
makes that domain explicit on `Nat`. -/
def bytes_to_hex (bs : List Nat) : List Nat :=
  (bs.map (fun b => [hexChar (b % 256 / 16), hexChar (b % 16)])).flatten

/-- ASCII lowercase map, the lowercase form referred to by the hex
round-trip law. -/
def asciiLower (s : List Nat) : List Nat :=
  s.map (fun b => if 65 ≤ b ∧ b ≤ 90 then b + 32 else b)

/-- Some aligned two-byte chunk of the list is rejected by radix-16 u8
parsing (includes a trailing unpaired byte). Stated from the amended
claim's words, to be compared with the source's `hexPairs` behavior. -/
def someChunkRejected : List Nat → Bool
  | [] => false
  | [_] => true
  | b1 :: b2 :: rest => !(parseRadix16 b1 b2).isSome || someChunkRejected rest

/-- No aligned two-byte chunk boundary of the list falls on a UTF-8
continuation byte, i.e. no chunk slice can panic. -/
def noSplitBoundary : List Nat → Bool
  | _ :: _ :: rest =>
    (match rest with | r :: _ => !isContByte r | [] => true) && noSplitBoundary rest
  | _ => true

/-- Whether every byte of the string is ASCII. On such strings the
byte-level whitespace trim coincides exactly with str::trim, and no
two-byte slice boundary can split a character. -/
def allAscii (s : List Nat) : Bool :=
  s.all (fun b => b < 128)

/-! ## Transaction data model — the `bitcoin` crate types as the repository
uses them (txid bytes in internal order, amounts and sequence as `Nat`).
The Rust `version` field is an `i32`; only its 4-byte little-endian wire
image matters here, so it is carried as the corresponding `Nat`. -/

structure OutPoint where
  txid : List Nat
  vout : Nat
deriving DecidableEq, Repr

structure TxIn where
  previous_output : OutPoint
  script_sig : List Nat
  sequence : Nat
  witness : List (List Nat)
deriving DecidableEq, Repr

structure TxOut where
  value : Nat
  script_pubkey : List Nat
deriving DecidableEq, Repr

structure Transaction where
  version : Nat
  lock_time : Nat
  input : List TxIn
  output : List TxOut
deriving DecidableEq, Repr

/-- Little-endian byte image of `n`, `k` bytes wide. -/
def leBytes : Nat → Nat → List Nat
  | 0, _ => []
  | k + 1, n => n % 256 :: leBytes k (n / 256)

/-- Big-endian value of a byte string (used for the secp256k1 scalar). -/
def beNat (bs : List Nat) : Nat :=
  bs.foldl (fun a b => a * 256 + b) 0

/-- Bitcoin CompactSize (varint) encoding of a length. -/
def varint (n : Nat) : List Nat :=
  if n < 253 then [n]
  else if n < 65536 then 253 :: leBytes 2 n
  else if n < 4294967296 then 254 :: leBytes 4 n
  else 255 :: leBytes 8 n

/-- Consensus encoding of one transaction input (txid, vout, script with
length prefix, sequence). -/
def serTxIn (i : TxIn) : List Nat :=
  i.previous_output.txid ++ leBytes 4 i.previous_output.vout ++
    varint i.script_sig.length ++ i.script_sig ++ leBytes 4 i.sequence

/-- Consensus encoding of one transaction output. -/
def serTxOut (o : TxOut) : List Nat :=
  leBytes 8 o.value ++ varint o.script_pubkey.length ++ o.script_pubkey

/-- Consensus encoding of one input's witness stack. -/
def serWitness (w : List (List Nat)) : List Nat :=
  varint w.length ++ (w.map (fun item => varint item.length ++ item)).flatten

/-- Whether `bitcoin::consensus::serialize` uses the BIP-141 (segwit)
format: some input has a non-empty witness, or — to avoid serialization
ambiguity — the transaction has no inputs at all (rust-bitcoin's
`uses_segwit_serialization`). -/
def usesSegwit (tx : Transaction) : Bool :=
  tx.input.any (fun i => !i.witness.isEmpty) || tx.input.isEmpty

/-- Consensus serialization of a list with its CompactSize count prefix. -/
def serList (f : α → List Nat) (l : List α) : List Nat :=
  varint l.length ++ (l.map f).flatten

/-- Model of `bitcoin::consensus::serialize` for `Transaction`: version,
then either the legacy input/output section or the segwit
marker-flag-inputs-outputs-witnesses section, then the lock time. -/
def serialize (tx : Transaction) : List Nat :=
  leBytes 4 tx.version ++
    (if usesSegwit tx then
      [0, 1] ++ serList serTxIn tx.input ++ serList serTxOut tx.output ++
        (tx.input.map (fun i => serWitness i.witness)).flatten
    else
      serList serTxIn tx.input ++ serList serTxOut tx.output) ++
    leBytes 4 tx.lock_time

/-- Take exactly `k` bytes from the stream. -/
def readBytes (k : Nat) (bs : List Nat) : Option (List Nat × List Nat) :=
  if bs.length < k then none else some (bs.take k, bs.drop k)

/-- Little-endian value of a byte list. -/
def leNat (bs : List Nat) : Nat :=
  bs.foldr (fun x a => a * 256 + x) 0

/-- Read a `k`-byte little-endian integer. -/
def readLE (k : Nat) (bs : List Nat) : Option (Nat × List Nat) :=
  match readBytes k bs with
  | none => none
  | some (b, r) => some (leNat b, r)

/-- Read a CompactSize count, rejecting non-minimal encodings as
rust-bitcoin's `VarInt` decoder does. -/
def readVarint (bs : List Nat) : Option (Nat × List Nat) :=
  match bs with
  | [] => none
  | b :: r =>
    if b < 253 then some (b, r)
    else if b = 253 then
      match readLE 2 r with
      | none => none
      | some (n, r2) => if n < 253 then none else some (n, r2)
    else if b = 254 then
      match readLE 4 r with
      | none => none
      | some (n, r2) => if n < 65536 then none else some (n, r2)
    else
      match readLE 8 r with
      | none => none
      | some (n, r2) => if n < 4294967296 then none else some (n, r2)

/-- Read a length-prefixed byte string (script or witness element). -/
def readVarBytes (bs : List Nat) : Option (List Nat × List Nat) :=
  match readVarint bs with
  | none => none
  | some (n, r) => readBytes n r

/-- Read `n` consecutive items with a given item reader. -/
def readN (f : List Nat → Option (α × List Nat)) :
    Nat → List Nat → Option (List α × List Nat)
  | 0, bs => some ([], bs)
  | n + 1, bs =>
    match f bs with
    | none => none
    | some (a, r) =>
      match readN f n r with
      | none => none
      | some (as_, r2) => some (a :: as_, r2)

/-- Read one transaction input (witness left empty; witnesses are decoded
separately in segwit format). -/
def readTxIn (bs : List Nat) : Option (TxIn × List Nat) :=
  match readBytes 32 bs with
  | none => none
  | some (txid, r1) =>
    match readLE 4 r1 with
    | none => none
    | some (vout, r2) =>
      match readVarBytes r2 with
      | none => none
      | some (scr, r3) =>
        match readLE 4 r3 with
        | none => none
        | some (seq, r4) =>
          some ({ previous_output := { txid := txid, vout := vout },
                  script_sig := scr, sequence := seq, witness := [] }, r4)

/-- Read one transaction output. -/
def readTxOut (bs : List Nat) : Option (TxOut × List Nat) :=
  match readLE 8 bs with
  | none => none
  | some (v, r1) =>
    match readVarBytes r1 with
    | none => none
    | some (scr, r2) => some ({ value := v, script_pubkey := scr }, r2)

/-- Read a CompactSize-counted list. -/
def readVec (f : List Nat → Option (α × List Nat)) (bs : List Nat) :
    Option (List α × List Nat) :=
  match readVarint bs with
  | none => none
  | some (n, r) => readN f n r

/-- Read one input's witness stack. -/
def readWitnessStack (bs : List Nat) : Option (List (List Nat) × List Nat) :=
  readVec readVarBytes bs

/-- Model of rust-bitcoin's `Transaction::consensus_decode`: read the
version and the input list; an empty input list is followed by a segwit
flag byte which must be 1, after which the real inputs, outputs, per-input
witness stacks and lock time follow (rejected when inputs are present but
every witness is empty); a non-empty input list continues in legacy
format. -/
def decodeTx (bs : List Nat) : Option (Transaction × List Nat) :=
  match readLE 4 bs with
  | none => none
  | some (v, r1) =>
    match readVec readTxIn r1 with
    | none => none
    | some (ins, r2) =>
      match ins with
      | [] =>
        match r2 with
        | [] => none
        | flag :: r3 =>
          if flag = 1 then
            match readVec readTxIn r3 with
            | none => none
            | some (ins2, r4) =>
              match readVec readTxOut r4 with
              | none => none
              | some (outs, r5) =>
                match readN readWitnessStack ins2.length r5 with
                | none => none
                | some (ws, r6) =>
                  match readLE 4 r6 with
                  | none => none
                  | some (lt, r7) =>
                    if !ins2.isEmpty && ws.all List.isEmpty then none
                    else
                      some ({ version := v, lock_time := lt,
                              input := List.zipWith
                                (fun i w => { i with witness := w }) ins2 ws,
                              output := outs }, r7)
          else none
      | _ :: _ =>
        match readVec readTxOut r2 with
        | none => none
        | some (outs, r3) =>
          match readLE 4 r3 with
          | none => none
          | some (lt, r4) =>
            some ({ version := v, lock_time := lt,
                    input := ins, output := outs }, r4)

/-- Model of `bitcoin::consensus::deserialize`: full decode with no
trailing bytes allowed. -/
def deserialize (bs : List Nat) : Option Transaction :=
  match decodeTx bs with
  | some (t, []) => some t
  | _ => none

/-! ## Library environment and key validity -/

/-- Network tag carried by a decoded address. -/
inductive Net where
  | mainnet
  | testnet
  | signet
  | regtest
deriving DecidableEq, Repr

/-- The network the engine is compiled against: both `sign_transaction`
and the wallet construct keys and addresses with `Network::Testnet`. -/
def engineNetwork : Net := Net.testnet

/-- Result of `Address::from_str` (a network-unchecked address): the
network the text encodes for and the locking script `script_pubkey()`
yields after `assume_checked()`. -/
structure ParsedAddress where
  network : Net
  script_pubkey : List Nat
deriving DecidableEq, Repr

/-- Abstraction of the `bitcoin`/`secp256k1` dependency calls the
repository makes: `OutPoint::from_str` on the formatted txid and vout,
`ScriptBuf::from_hex`, `Address::from_str`, compressed public-key bytes
from a 32-byte secret, and the testnet P2PKH base58 address text for a
public key. All are deterministic functions in the dependency. -/
structure LibEnv where
  parseOutpoint : List Nat → Nat → Option OutPoint
  parseScriptHex : List Nat → Option (List Nat)
  parseAddress : List Nat → Option ParsedAddress
  derivePubkey : List Nat → List Nat
  p2pkhAddress : List Nat → List Nat

/-- The secp256k1 group order. -/
def secpOrder : Nat :=
  0xfffffffffffffffffffffffffffffffebaaedce6af48a03bbfd25e8cd0364141

/-- Scalar-range check performed by `SecretKey::from_slice` on a 32-byte
input: the big-endian value must be nonzero and below the group order. -/
def secretKeyValid (bs : List Nat) : Bool :=
  decide (0 < beNat bs) && decide (beNat bs < secpOrder)

/-! ## build_transaction — src/core/src/transaction/mod.rs lines 22-70.
The serde-JSON boundary is abstracted: the function is embedded over the
already-parsed input and output record lists (serde maps the JSON text
`[]` to the empty list). -/

/-- Input record of the build request (`TransactionInput`). -/
structure TransactionInput where
  txid : List Nat
  vout : Nat
  amount : Nat
  script_pubkey : List Nat

/-- Output record of the build request (`TransactionOutput`). -/
structure TransactionOutput where
  address : List Nat
  amount : Nat

/-- Error cases of the build loop (the JSON-parse errors of the abstracted
boundary are not modelled). -/
inductive BuildErr where
  | invalidOutpoint
  | invalidScript
  | invalidAddress
deriving DecidableEq, Repr

/-- The input loop of `build_transaction`: parse each outpoint and script,
pushing a `TxIn` with the parsed script as `script_sig`, empty witness and
maximal sequence, stopping at the first failure. -/
def buildTxIns (env : LibEnv) : List TransactionInput → Except BuildErr (List TxIn)
  | [] => Except.ok []
  | i :: rest =>
    match env.parseOutpoint i.txid i.vout with
    | none => Except.error BuildErr.invalidOutpoint
    | some op =>
      match env.parseScriptHex i.script_pubkey with
      | none => Except.error BuildErr.invalidScript
      | some spk =>
        match buildTxIns env rest with
        | Except.error e => Except.error e
        | Except.ok tl =>
          Except.ok ({ previous_output := op, script_sig := spk,
                       sequence := 4294967295, witness := [] } :: tl)

/-- The output loop of `build_transaction`: decode each destination
address (then `assume_checked`) and push a `TxOut` with the amount copied
verbatim and the address's locking script. -/
def buildTxOuts (env : LibEnv) : List TransactionOutput → Except BuildErr (List TxOut)
  | [] => Except.ok []
  | o :: rest =>
    match env.parseAddress o.address with
    | none => Except.error BuildErr.invalidAddress
    | some a =>
      match buildTxOuts env rest with
      | Except.error e => Except.error e
      | Except.ok tl =>
        Except.ok ({ value := o.amount, script_pubkey := a.script_pubkey } :: tl)

/-- Embedding of `build_transaction`: version 2, lock time 0, the two
loops above, consensus serialization, hex encoding. The fee parameter is
accepted and unused, as in the source. -/
def build_transaction (env : LibEnv) (inputs : List TransactionInput)
    (outputs : List TransactionOutput) (_fee_sat : Nat) :
    Except BuildErr (List Nat) :=
  match buildTxIns env inputs with
  | Except.error e => Except.error e
  | Except.ok ins =>
    match buildTxOuts env outputs with
    | Except.error e => Except.error e
    | Except.ok outs =>
      Except.ok (bytes_to_hex (serialize
        { version := 2, lock_time := 0, input := ins, output := outs }))

/-! ## sign_transaction — src/core/src/transaction/mod.rs lines 72-113 -/

/-- Error cases of `sign_transaction`, in the order the source can hit
them. -/
inductive SignErr where
  | invalidPrivateKeyHex
  | privateKeyLength
  | invalidSecretKey
  | invalidTxHex
  | txDeserialize
deriving DecidableEq, Repr

/-- Outcome of `sign_transaction`: the hex of the re-serialized
transaction, an error, or a panic (the source indexes `tx.input` without
a bounds check). -/
inductive SignResult where
  | ok (hex : List Nat)
  | err (e : SignErr)
  | panicked
deriving DecidableEq, Repr

/-- Replace the witness of the input at the given position, leaving every
other field and every other input unchanged (the functional image of
`tx.input[input_index].witness = ...`). -/
def setWitnessAt (w : List (List Nat)) : Nat → List TxIn → List TxIn
  | _, [] => []
  | 0, x :: xs => { x with witness := w } :: xs
  | n + 1, x :: xs => x :: setWitnessAt w n xs

/-- The witness stack the source installs: a 64-byte zero-filled
signature slot with the `EcdsaSighashType::All` tag byte appended,
followed by the compressed public key bytes. -/
def signWitnessItems (env : LibEnv) (kb : List Nat) : List (List Nat) :=
  [List.replicate 64 0 ++ [1], env.derivePubkey kb]

/-- Embedding of `sign_transaction`: decode and validate the private key,
decode and deserialize the transaction, then overwrite the indexed input's
witness with the zero-signature stack and re-serialize. An out-of-range
index panics (unchecked `Vec` indexing); the script-pubkey and value
parameters are accepted and unused, as in the source. -/
def sign_transaction (env : LibEnv) (tx_hex private_key_hex : List Nat)
    (input_index : Nat) (_script_pubkey_hex : List Nat)
    (_satoshi_value : Nat) : SignResult :=
  match hex_to_bytes private_key_hex with
  | HexResult.panicked => SignResult.panicked
  | HexResult.error => SignResult.err SignErr.invalidPrivateKeyHex
  | HexResult.ok kb =>
    if kb.length ≠ 32 then SignResult.err SignErr.privateKeyLength
    else if secretKeyValid kb = false then SignResult.err SignErr.invalidSecretKey
    else
      match hex_to_bytes tx_hex with
      | HexResult.panicked => SignResult.panicked
      | HexResult.error => SignResult.err SignErr.invalidTxHex
      | HexResult.ok txb =>
        match deserialize txb with
        | none => SignResult.err SignErr.txDeserialize
        | some tx =>
          if input_index < tx.input.length then
            SignResult.ok (bytes_to_hex (serialize
              { tx with input := setWitnessAt (signWitnessItems env kb)
                                    input_index tx.input }))
          else SignResult.panicked

/-! ## Wallet — src/core/src/wallet/mod.rs -/

/-- Address record returned by the wallet (`WalletAddresses`). -/
structure WalletAddresses where
  legacy : List Nat
  segwit : List Nat
  taproot : List Nat
deriving DecidableEq, Repr

/-- Key-pair record returned by the wallet (`KeyPair`); the final
serde-JSON rendering of this record is abstracted away. -/
structure KeyPair where
  private_key : List Nat
  public_key : List Nat
  addresses : WalletAddresses
deriving DecidableEq, Repr

/-- Error cases of `derive_addresses_from_key`. -/
inductive WalletErr where
  | invalidPrivateKeyHex
  | privateKeyLength
  | invalidSecretKey
deriving DecidableEq, Repr

/-- Outcome of `derive_addresses_from_key`. -/
inductive DeriveResult where
  | ok (kp : KeyPair)
  | err (e : WalletErr)
  | panicked
deriving DecidableEq, Repr

/-- Embedding of `derive_addresses_from_key`: decode and validate the
key, derive the compressed public key, render the testnet P2PKH (legacy)
address, and return it as all three address fields, as the source does. -/
def derive_addresses_from_key (env : LibEnv) (private_key_hex : List Nat) :
    DeriveResult :=
  match hex_to_bytes private_key_hex with
  | HexResult.panicked => DeriveResult.panicked
  | HexResult.error => DeriveResult.err WalletErr.invalidPrivateKeyHex
  | HexResult.ok kb =>
    if kb.length ≠ 32 then DeriveResult.err WalletErr.privateKeyLength
    else if secretKeyValid kb = false then DeriveResult.err WalletErr.invalidSecretKey
    else
      DeriveResult.ok
        { private_key := private_key_hex,
          public_key := bytes_to_hex (env.derivePubkey kb),
          addresses :=
            { legacy := env.p2pkhAddress (env.derivePubkey kb),
              segwit := env.p2pkhAddress (env.derivePubkey kb),
              taproot := env.p2pkhAddress (env.derivePubkey kb) } }

/-- Modelled from the spec: ECDSA verification (dependency code not in
this repository) accepts a signature only when both scalar components r
and s lie strictly between 0 and the secp256k1 group order; read off the
64-byte raw signature slot as two big-endian 32-byte halves. A signature
failing this is rejected by every verifier. -/
def ecdsaSigComponentsAdmissible (sig64 : List Nat) : Prop :=
  0 < beNat (sig64.take 32) ∧ beNat (sig64.take 32) < secpOrder ∧
    0 < beNat (sig64.drop 32) ∧ beNat (sig64.drop 32) < secpOrder

/-! ## Concrete demonstration values used by witnesses and
counterexamples -/

/-- A valid 32-byte secret: the scalar 1. -/
def demoKeyBytes : List Nat := List.replicate 31 0 ++ [1]

/-- Its hex text. -/
def demoKeyHex : List Nat := bytes_to_hex demoKeyBytes

/-- A 33-byte compressed public key value for the demonstration
environment. -/
def demoPubkey : List Nat := 2 :: List.replicate 32 7

/-- A concrete deterministic instantiation of the dependency
environment. -/
def demoEnv : LibEnv :=
  { parseOutpoint := fun _ _ => some { txid := List.replicate 32 0, vout := 0 },
    parseScriptHex := fun _ => some [81],
    parseAddress := fun _ => some { network := Net.testnet, script_pubkey := [81] },
    derivePubkey := fun _ => demoPubkey,
    p2pkhAddress := fun _ => [109, 107] }

/-- An environment whose addresses decode as mainnet addresses. -/
def mainnetEnv : LibEnv :=
  { demoEnv with
    parseAddress := fun _ => some { network := Net.mainnet, script_pubkey := [81] } }

/-- A demonstration transaction input. -/
def demoTxIn1 : TxIn :=
  { previous_output := { txid := List.replicate 32 17, vout := 0 },
    script_sig := [81], sequence := 4294967295, witness := [] }

/-- A second demonstration input. -/
def demoTxIn2 : TxIn :=
  { previous_output := { txid := List.replicate 32 34, vout := 1 },
    script_sig := [], sequence := 4294967295, witness := [] }

/-- A demonstration output. -/
def demoTxOut : TxOut := { value := 90000, script_pubkey := [81] }

/-- A one-input demonstration transaction. -/
def demoTx1 : Transaction :=
  { version := 2, lock_time := 0, input := [demoTxIn1], output := [demoTxOut] }

/-- A two-input demonstration transaction. -/
def demoTx2 : Transaction :=
  { version := 2, lock_time := 0, input := [demoTxIn1, demoTxIn2],
    output := [demoTxOut] }

/-- Hex text of the one-input demonstration transaction. -/
def demoTx1Hex : List Nat := bytes_to_hex (serialize demoTx1)

/-- Hex text of the two-input demonstration transaction. -/
def demoTx2Hex : List Nat := bytes_to_hex (serialize demoTx2)

/-- The key-pair record `derive_addresses_from_key` produces in the
demonstration environment for the demonstration key. -/
def demoKeyPair : KeyPair :=
  { private_key := demoKeyHex,
    public_key := bytes_to_hex demoPubkey,
    addresses := { legacy := [109, 107], segwit := [109, 107],
                   taproot := [109, 107] } }

/-- An environment in which no destination address decodes. -/
def noAddrEnv : LibEnv :=
  { demoEnv with parseAddress := fun _ => none }

/-! ## Helper lemmas: hex codec -/

theorem dropWhile_isWs_eq_self (s : List Nat) (h : ∀ b ∈ s, isWsByte b = false) :
    s.dropWhile isWsByte = s := by
  cases s with
  | nil => rfl
  | cons a t => simp [List.dropWhile_cons, h a (List.mem_cons_self a t)]

theorem trimAscii_eq_self (s : List Nat) (h : ∀ b ∈ s, isWsByte b = false) :
    trimAscii s = s := by
  unfold trimAscii
  rw [dropWhile_isWs_eq_self s h, dropWhile_isWs_eq_self, List.reverse_reverse]
  intro b hb
  exact h b (List.mem_reverse.mp hb)

theorem hexVal_hexChar (v : Nat) (h : v < 16) : hexVal (hexChar v) = some v := by
  unfold hexChar hexVal
  split_ifs <;> first
  | (simp only [Option.some.injEq]; omega)
  | (exfalso; omega)

theorem hexVal_bounds (b v : Nat) (h : hexVal b = some v) :
    v < 16 ∧ 48 ≤ b ∧ b ≤ 102 := by
  unfold hexVal at h
  split_ifs at h <;> simp only [Option.some.injEq] at h <;> omega

theorem isContByte_of_le (b : Nat) (h : b < 128) : isContByte b = false := by
  simp only [isContByte, Bool.and_eq_false_iff, decide_eq_false_iff_not]
  omega

theorem isWsByte_of_ge (b : Nat) (h : 48 ≤ b) : isWsByte b = false := by
  simp only [isWsByte, Bool.or_eq_false_iff, beq_eq_false_iff_ne, ne_eq]
  omega

theorem hexChar_lt (v : Nat) (h : v < 16) : 48 ≤ hexChar v ∧ hexChar v ≤ 102 := by
  unfold hexChar
  split_ifs <;> omega

theorem parseRadix16_digits (b1 b2 h l : Nat) (h1 : hexVal b1 = some h)
    (h2 : hexVal b2 = some l) : parseRadix16 b1 b2 = some (16 * h + l) := by
  unfold parseRadix16
  rw [h1, h2]

theorem asciiLower_digit (b v : Nat) (h : hexVal b = some v) :
    (if 65 ≤ b ∧ b ≤ 90 then b + 32 else b) = hexChar v := by
  unfold hexVal at h
  unfold hexChar
  split_ifs at h ⊢ <;> simp only [Option.some.injEq] at h <;> omega

theorem bytes_to_hex_cons (x : Nat) (bs : List Nat) :
    bytes_to_hex (x :: bs) =
      hexChar (x % 256 / 16) :: hexChar (x % 16) :: bytes_to_hex bs := by
  simp [bytes_to_hex]

theorem bytes_to_hex_mem (bs : List Nat) (b : Nat) (hb : b ∈ bytes_to_hex bs) :
    ∃ v, v < 16 ∧ b = hexChar v := by
  induction bs with
  | nil => simp [bytes_to_hex] at hb
  | cons x t ih =>
    rw [bytes_to_hex_cons] at hb
    rcases List.mem_cons.mp hb with rfl | hb2
    · exact ⟨x % 256 / 16, by omega, rfl⟩
    · rcases List.mem_cons.mp hb2 with rfl | hb3
      · exact ⟨x % 16, by omega, rfl⟩
      · exact ih hb3

theorem bytes_to_hex_length (bs : List Nat) :
    (bytes_to_hex bs).length = 2 * bs.length := by
  induction bs with
  | nil => rfl
  | cons x t ih => simp [bytes_to_hex_cons, ih]; omega

theorem hexPairs_encode (bs : List Nat) (h : ∀ x ∈ bs, x < 256) :
    hexPairs (bytes_to_hex bs) = HexResult.ok bs := by
  induction bs with
  | nil => rfl
  | cons x t ih =>
    have hx : x < 256 := h x (List.mem_cons_self x t)
    have ht : ∀ y ∈ t, y < 256 := fun y hy => h y (List.mem_cons_of_mem x hy)
    have hguard :
        (match bytes_to_hex t with | r :: _ => isContByte r | [] => false) = false := by
      cases ht2 : bytes_to_hex t with
      | nil => rfl
      | cons r rs =>
        have hr : r ∈ bytes_to_hex t := by
          rw [ht2]; exact List.mem_cons_self r rs
        obtain ⟨v, hv, rfl⟩ := bytes_to_hex_mem t r hr
        exact isContByte_of_le _ (by have := hexChar_lt v hv; omega)
    have hpr : parseRadix16 (hexChar (x % 256 / 16)) (hexChar (x % 16)) = some x := by
      rw [parseRadix16_digits (hexChar (x % 256 / 16)) (hexChar (x % 16))
        (x % 256 / 16) (x % 16) (hexVal_hexChar (x % 256 / 16) (by omega))
        (hexVal_hexChar (x % 16) (by omega))]
      congr 1
      omega
    rw [bytes_to_hex_cons]
    simp only [hexPairs, hguard, Bool.false_eq_true, if_false, hpr, ih ht]

theorem hex_to_bytes_encode (bs : List Nat) (h : ∀ x ∈ bs, x < 256) :
    hex_to_bytes (bytes_to_hex bs) = HexResult.ok bs := by
  have hnw : ∀ b ∈ bytes_to_hex bs, isWsByte b = false := by
    intro b hb
    obtain ⟨v, hv, rfl⟩ := bytes_to_hex_mem bs b hb
    exact isWsByte_of_ge _ (hexChar_lt v hv).1
  unfold hex_to_bytes
  rw [trimAscii_eq_self _ hnw, bytes_to_hex_length]
  simp [Nat.mul_mod_right, hexPairs_encode bs h]

theorem hexPairs_digits : ∀ t : List Nat, t.length % 2 = 0 →
    (∀ b ∈ t, isHexDigitByte b = true) →
    ∃ vs, hexPairs t = HexResult.ok vs ∧ bytes_to_hex vs = asciiLower t := by
  intro t
  induction t using hexPairs.induct with
  | case1 => exact fun _ _ => ⟨[], rfl, rfl⟩
  | case2 x => intro hlen _; simp at hlen
  | case3 b1 b2 rest hguard =>
    intro _ hdig
    exfalso
    cases rest with
    | nil => exact Bool.noConfusion hguard
    | cons r tail =>
      have hd : isHexDigitByte r = true :=
        hdig r (by simp [List.mem_cons])
      obtain ⟨v, hv⟩ := Option.isSome_iff_exists.mp hd
      have hb := hexVal_bounds r v hv
      have hg : isContByte r = true := hguard
      rw [isContByte_of_le r (by omega)] at hg
      exact Bool.noConfusion hg
  | case4 b1 b2 rest hguard v hv vs hrest ih =>
    intro hlen hdig
    have h1 : isHexDigitByte b1 = true := hdig b1 (by simp)
    have h2 : isHexDigitByte b2 = true := hdig b2 (by simp)
    obtain ⟨hb1, hvb1⟩ := Option.isSome_iff_exists.mp h1
    obtain ⟨hb2, hvb2⟩ := Option.isSome_iff_exists.mp h2
    have hrl : rest.length % 2 = 0 := by
      have : rest.length + 2 = (b1 :: b2 :: rest).length := by simp
      omega
    have hrd : ∀ b ∈ rest, isHexDigitByte b = true := fun b hb =>
      hdig b (by simp [List.mem_cons, hb])
    obtain ⟨vs2, hok2, hhex2⟩ := ih hrl hrd
    rw [hok2] at hrest
    cases hrest
    have hveq : v = 16 * hb1 + hb2 := by
      rw [parseRadix16_digits b1 b2 hb1 hb2 hvb1 hvb2] at hv
      exact (Option.some.injEq _ _).mp hv.symm
    have hb1lt := hexVal_bounds b1 hb1 hvb1
    have hb2lt := hexVal_bounds b2 hb2 hvb2
    refine ⟨v :: vs, ?_, ?_⟩
    · simp [hexPairs, hguard, hv, hok2]
    · rw [bytes_to_hex_cons, hhex2]
      have e1 : v % 256 / 16 = hb1 := by omega
      have e2 : v % 16 = hb2 := by omega
      rw [e1, e2]
      simp only [asciiLower, List.map_cons,
        asciiLower_digit b1 hb1 hvb1, asciiLower_digit b2 hb2 hvb2]
  | case5 b1 b2 rest hguard v hv hnotok ih =>
    intro hlen hdig
    exfalso
    have hrl : rest.length % 2 = 0 := by
      have : rest.length + 2 = (b1 :: b2 :: rest).length := by simp
      omega
    have hrd : ∀ b ∈ rest, isHexDigitByte b = true := fun b hb =>
      hdig b (by simp [List.mem_cons, hb])
    obtain ⟨vs2, hok2, _⟩ := ih hrl hrd
    exact hnotok vs2 hok2
  | case6 b1 b2 rest hguard hnone =>
    intro hlen hdig
    exfalso
    have h1 : isHexDigitByte b1 = true := hdig b1 (by simp)
    have h2 : isHexDigitByte b2 = true := hdig b2 (by simp)
    obtain ⟨hb1, hvb1⟩ := Option.isSome_iff_exists.mp h1
    obtain ⟨hb2, hvb2⟩ := Option.isSome_iff_exists.mp h2
    rw [parseRadix16_digits b1 b2 hb1 hb2 hvb1 hvb2] at hnone
    exact Option.noConfusion hnone

theorem hex_to_bytes_decode_encode (s : List Nat)
    (h1 : (trimAscii s).length % 2 = 0)
    (h2 : ∀ b ∈ trimAscii s, isHexDigitByte b = true) :
    ∃ bs, hex_to_bytes s = HexResult.ok bs ∧
      bytes_to_hex bs = asciiLower (trimAscii s) := by
  obtain ⟨vs, hok, hhex⟩ := hexPairs_digits (trimAscii s) h1 h2
  exact ⟨vs, by simp [hex_to_bytes, h1, hok], hhex⟩

theorem hexPairs_characterization : ∀ t : List Nat, noSplitBoundary t = true →
    hexPairs t ≠ HexResult.panicked ∧
      (hexPairs t = HexResult.error ↔ someChunkRejected t = true) := by
  intro t
  induction t using hexPairs.induct with
  | case1 => intro _; exact ⟨by simp [hexPairs], by simp [hexPairs, someChunkRejected]⟩
  | case2 x => intro _; exact ⟨by simp [hexPairs], by simp [hexPairs, someChunkRejected]⟩
  | case3 b1 b2 rest hguard =>
    intro hns
    exfalso
    cases rest with
    | nil => exact Bool.noConfusion hguard
    | cons r tail =>
      have hg : isContByte r = true := hguard
      have h2 : ((!isContByte r) && noSplitBoundary (r :: tail)) = true := hns
      rw [hg] at h2
      exact Bool.noConfusion ((Bool.and_eq_true _ _).mp h2).1
  | case4 b1 b2 rest hguard v hv vs hrest ih =>
    intro hns
    have hns2 : noSplitBoundary rest = true := by
      cases rest with
      | nil => rfl
      | cons r tail =>
        have h2 : ((!isContByte r) && noSplitBoundary (r :: tail)) = true := hns
        exact ((Bool.and_eq_true _ _).mp h2).2
    obtain ⟨hnp, hiff⟩ := ih hns2
    have hres : hexPairs (b1 :: b2 :: rest) = HexResult.ok (v :: vs) := by
      simp [hexPairs, hguard, hv, hrest]
    have hrej : someChunkRejected rest = false := by
      cases hc : someChunkRejected rest with
      | false => rfl
      | true => rw [hiff.mpr hc] at hrest; exact HexResult.noConfusion hrest
    constructor
    · rw [hres]; exact fun he => HexResult.noConfusion he
    · rw [hres]
      constructor
      · exact fun he => HexResult.noConfusion he
      · intro hc
        exfalso
        simp only [someChunkRejected, hv, Option.isSome_some, Bool.not_true,
          Bool.false_or] at hc
        rw [hc] at hrej
        exact Bool.noConfusion hrej
  | case5 b1 b2 rest hguard v hv hnotok ih =>
    intro hns
    have hns2 : noSplitBoundary rest = true := by
      cases rest with
      | nil => rfl
      | cons r tail =>
        have h2 : ((!isContByte r) && noSplitBoundary (r :: tail)) = true := hns
        exact ((Bool.and_eq_true _ _).mp h2).2
    obtain ⟨hnp, hiff⟩ := ih hns2
    cases hr : hexPairs rest with
    | ok vs2 => exact absurd hr (hnotok vs2)
    | panicked => exact absurd hr hnp
    | error =>
      have hres : hexPairs (b1 :: b2 :: rest) = HexResult.error := by
        simp [hexPairs, hguard, hv, hr]
      have hrej : someChunkRejected rest = true := hiff.mp hr
      constructor
      · rw [hres]; exact fun he => HexResult.noConfusion he
      · rw [hres]
        simp [someChunkRejected, hrej]
  | case6 b1 b2 rest hguard hnone =>
    intro _
    have hres : hexPairs (b1 :: b2 :: rest) = HexResult.error := by
      simp [hexPairs, hguard, hnone]
    constructor
    · rw [hres]; exact fun he => HexResult.noConfusion he
    · rw [hres]
      simp [someChunkRejected, hnone]


theorem mem_trimAscii (s : List Nat) (b : Nat) (hb : b ∈ trimAscii s) :
    b ∈ s := by
  unfold trimAscii at hb
  rw [List.mem_reverse] at hb
  have h1 : b ∈ (s.dropWhile isWsByte).reverse :=
    (List.dropWhile_sublist _).subset hb
  rw [List.mem_reverse] at h1
  exact (List.dropWhile_sublist _).subset h1

theorem noSplitBoundary_of_ascii : ∀ t : List Nat, (∀ b ∈ t, b < 128) →
    noSplitBoundary t = true := by
  intro t
  induction t using noSplitBoundary.induct with
  | case1 a b rest ih =>
    intro h
    have hrest : ∀ x ∈ rest, x < 128 := fun x hx =>
      h x (by simp [List.mem_cons, hx])
    have h2 := ih hrest
    cases rest with
    | nil => rfl
    | cons r tail =>
      have hr : r < 128 := hrest r (List.mem_cons_self r tail)
      show ((!isContByte r) && noSplitBoundary (r :: tail)) = true
      rw [isContByte_of_le r hr, h2]
      rfl
  | case2 t hne =>
    intro _
    match t, hne with
    | [], _ => rfl
    | [_], _ => rfl
    | a :: b :: rest, hne => exact (hne a b rest rfl).elim

theorem noSplit_trim_of_ascii (s : List Nat) (h : allAscii s = true) :
    noSplitBoundary (trimAscii s) = true := by
  apply noSplitBoundary_of_ascii
  intro b hb
  simp only [allAscii, List.all_eq_true, decide_eq_true_eq] at h
  exact h b (mem_trimAscii s b hb)

/-! ## Helper lemmas: witness update and signing -/

theorem setWitnessAt_length (w : List (List Nat)) :
    ∀ (n : Nat) (l : List TxIn), (setWitnessAt w n l).length = l.length := by
  intro n l
  induction l generalizing n with
  | nil => cases n <;> rfl
  | cons x xs ih =>
    cases n with
    | zero => rfl
    | succ m => simp [setWitnessAt, ih m]

theorem setWitnessAt_ne (w : List (List Nat)) :
    ∀ (n j : Nat) (l : List TxIn), j ≠ n →
      (setWitnessAt w n l)[j]? = l[j]? := by
  intro n j l
  induction l generalizing n j with
  | nil => intro _; cases n <;> rfl
  | cons x xs ih =>
    intro hj
    cases n with
    | zero =>
      cases j with
      | zero => exact absurd rfl hj
      | succ m => simp [setWitnessAt]
    | succ m =>
      cases j with
      | zero => simp [setWitnessAt]
      | succ p =>
        simp only [setWitnessAt, List.getElem?_cons_succ]
        exact ih m p (fun he => hj (by rw [he]))

theorem setWitnessAt_eq (w : List (List Nat)) :
    ∀ (n : Nat) (l : List TxIn) (a : TxIn), l[n]? = some a →
      (setWitnessAt w n l)[n]? = some { a with witness := w } := by
  intro n l
  induction l generalizing n with
  | nil => intro a ha; simp at ha
  | cons x xs ih =>
    intro a ha
    cases n with
    | zero =>
      simp only [List.getElem?_cons_zero, Option.some.injEq] at ha
      subst ha
      simp [setWitnessAt]
    | succ m =>
      simp only [List.getElem?_cons_succ] at ha
      simp only [setWitnessAt, List.getElem?_cons_succ]
      exact ih m a ha

theorem sign_transaction_eq (env : LibEnv) (tx_hex pk_hex spk : List Nat)
    (idx val : Nat) (bs kb : List Nat) (tx : Transaction)
    (hk : hex_to_bytes pk_hex = HexResult.ok kb) (hlen : kb.length = 32)
    (hval : secretKeyValid kb = true)
    (htx : hex_to_bytes tx_hex = HexResult.ok bs)
    (hde : deserialize bs = some tx)
    (hidx : idx < tx.input.length) :
    sign_transaction env tx_hex pk_hex idx spk val =
      SignResult.ok (bytes_to_hex (serialize
        { tx with input := setWitnessAt (signWitnessItems env kb) idx tx.input })) := by
  simp [sign_transaction, hk, hlen, hval, htx, hde, hidx]

/-! ## Helper lemmas: transaction building -/

theorem buildTxIns_ok (env : LibEnv) : ∀ inputs : List TransactionInput,
    (∀ i ∈ inputs, (env.parseOutpoint i.txid i.vout).isSome ∧
      (env.parseScriptHex i.script_pubkey).isSome) →
    ∃ l, buildTxIns env inputs = Except.ok l ∧ l.length = inputs.length ∧
      ∀ (k : Nat) (inp : TransactionInput), inputs[k]? = some inp →
        ∃ op spk, env.parseOutpoint inp.txid inp.vout = some op ∧
          env.parseScriptHex inp.script_pubkey = some spk ∧
          l[k]? = some { previous_output := op, script_sig := spk,
                         sequence := 4294967295, witness := [] } := by
  intro inputs
  induction inputs with
  | nil => exact fun _ => ⟨[], rfl, rfl, fun k inp h => by simp at h⟩
  | cons i rest ih =>
    intro h
    obtain ⟨hop, hscr⟩ := h i (List.mem_cons_self i rest)
    obtain ⟨op, hop2⟩ := Option.isSome_iff_exists.mp hop
    obtain ⟨spk, hscr2⟩ := Option.isSome_iff_exists.mp hscr
    obtain ⟨tl, htl, hlen, hchar⟩ := ih (fun j hj => h j (List.mem_cons_of_mem i hj))
    refine ⟨{ previous_output := op, script_sig := spk,
              sequence := 4294967295, witness := [] } :: tl, ?_, ?_, ?_⟩
    · simp [buildTxIns, hop2, hscr2, htl]
    · simp [hlen]
    · intro k inp hk
      cases k with
      | zero =>
        simp only [List.getElem?_cons_zero, Option.some.injEq] at hk
        subst hk
        exact ⟨op, spk, hop2, hscr2, by simp⟩
      | succ m =>
        simp only [List.getElem?_cons_succ] at hk ⊢
        exact hchar m inp hk

theorem buildTxOuts_ok (env : LibEnv) : ∀ outputs : List TransactionOutput,
    (∀ o ∈ outputs, (env.parseAddress o.address).isSome) →
    ∃ l, buildTxOuts env outputs = Except.ok l ∧ l.length = outputs.length ∧
      ∀ (k : Nat) (o : TransactionOutput), outputs[k]? = some o →
        ∃ a, env.parseAddress o.address = some a ∧
          l[k]? = some { value := o.amount, script_pubkey := a.script_pubkey } := by
  intro outputs
  induction outputs with
  | nil => exact fun _ => ⟨[], rfl, rfl, fun k o h => by simp at h⟩
  | cons o rest ih =>
    intro h
    obtain ⟨a, ha⟩ := Option.isSome_iff_exists.mp (h o (List.mem_cons_self o rest))
    obtain ⟨tl, htl, hlen, hchar⟩ := ih (fun j hj => h j (List.mem_cons_of_mem o hj))
    refine ⟨{ value := o.amount, script_pubkey := a.script_pubkey } :: tl, ?_, ?_, ?_⟩
    · simp [buildTxOuts, ha, htl]
    · simp [hlen]
    · intro k o2 hk
      cases k with
      | zero =>
        simp only [List.getElem?_cons_zero, Option.some.injEq] at hk
        subst hk
        exact ⟨a, ha, by simp⟩
      | succ m =>
        simp only [List.getElem?_cons_succ] at hk ⊢
        exact hchar m o2 hk

theorem buildTxOuts_bad_address (env : LibEnv) : ∀ outputs : List TransactionOutput,
    (∃ o ∈ outputs, env.parseAddress o.address = none) →
    buildTxOuts env outputs = Except.error BuildErr.invalidAddress := by
  intro outputs
  induction outputs with
  | nil => rintro ⟨o, ho, _⟩; simp at ho
  | cons o rest ih =>
    rintro ⟨o2, ho2, hnone⟩
    rcases List.mem_cons.mp ho2 with rfl | hmem
    · simp [buildTxOuts, hnone]
    · cases ha : env.parseAddress o.address with
      | none => simp [buildTxOuts, ha]
      | some a => simp [buildTxOuts, ha, ih ⟨o2, hmem, hnone⟩]

theorem buildTxIns_congr (env env2 : LibEnv)
    (h1 : env2.parseOutpoint = env.parseOutpoint)
    (h2 : env2.parseScriptHex = env.parseScriptHex) :
    ∀ inputs, buildTxIns env2 inputs = buildTxIns env inputs := by
  intro inputs
  induction inputs with
  | nil => rfl
  | cons i rest ih => simp [buildTxIns, h1, h2, ih]

theorem buildTxOuts_congr (env env2 : LibEnv)
    (h : ∀ s, (env2.parseAddress s).map ParsedAddress.script_pubkey =
      (env.parseAddress s).map ParsedAddress.script_pubkey) :
    ∀ outputs, buildTxOuts env2 outputs = buildTxOuts env outputs := by
  intro outputs
  induction outputs with
  | nil => rfl
  | cons o rest ih =>
    have ho := h o.address
    cases h2 : env2.parseAddress o.address with
    | none =>
      cases h1 : env.parseAddress o.address with
      | none => simp [buildTxOuts, h1, h2, ih]
      | some a => rw [h2, h1] at ho; simp at ho
    | some a2 =>
      cases h1 : env.parseAddress o.address with
      | none => rw [h2, h1] at ho; simp at ho
      | some a =>
        rw [h2, h1] at ho
        simp at ho
        simp [buildTxOuts, h1, h2, ih, ho]

/-! ## Claim theorems -/

/-- Claim C4: hex codec round-trip. Decoding an encoding returns the
original byte sequence, and for a string accepted because its trimmed
form has even length and only hex digits, encoding the decoding returns
the lowercase form of the trimmed string. -/
theorem hex_codec_roundtrip :
    (∀ bs : List Nat, (∀ x ∈ bs, x < 256) →
      hex_to_bytes (bytes_to_hex bs) = HexResult.ok bs) ∧
    (∀ s : List Nat, (trimAscii s).length % 2 = 0 →
      (∀ b ∈ trimAscii s, isHexDigitByte b = true) →
      ∃ bs, hex_to_bytes s = HexResult.ok bs ∧
        bytes_to_hex bs = asciiLower (trimAscii s)) :=
  ⟨hex_to_bytes_encode, hex_to_bytes_decode_encode⟩

/-- Witness for C4 at concrete inputs: the single byte 171 and the
two-character string holding the bytes of "AB". -/
theorem hex_codec_roundtrip_witness :
    ((∀ x ∈ [171], x < 256) ∧
      hex_to_bytes (bytes_to_hex [171]) = HexResult.ok [171]) ∧
    ((trimAscii [65, 66]).length % 2 = 0 ∧
      (∀ b ∈ trimAscii [65, 66], isHexDigitByte b = true) ∧
      ∃ bs, hex_to_bytes [65, 66] = HexResult.ok bs ∧
        bytes_to_hex bs = asciiLower (trimAscii [65, 66])) :=
  ⟨⟨by decide, hex_codec_roundtrip.1 [171] (by decide)⟩,
   ⟨by decide, by decide,
     hex_codec_roundtrip.2 [65, 66] (by decide) (by decide)⟩⟩

/-- Claim C5 counterexample: the two-byte string "+f" contains a byte
(the plus sign, 43) that is not a hex digit, so the claim requires a
MalformedHex error, yet hex_to_bytes accepts the string and returns the
byte 15, because u8 radix-16 parsing accepts a leading plus sign. -/
theorem hex_accepts_plus_digit :
    hex_to_bytes [43, 102] = HexResult.ok [15] ∧ isHexDigitByte 43 = false :=
  ⟨rfl, rfl⟩

/-- Claim C5 (amended): hex_to_bytes returns decoded bytes, an error, or
a panic, and nothing else. For ASCII input strings — where the
byte-level trim model coincides exactly with str::trim — it never panics
and, after trimming, errors exactly when the trimmed length is odd or
some aligned two-byte chunk is rejected by u8 radix-16 parsing, which
accepts two hex digits or a plus sign followed by one hex digit,
strictly wider than the claimed hex-digits-only condition. On inputs
where an aligned chunk boundary splits a multi-byte UTF-8 character,
such as the bytes of "a\xC3\xA90", the byte slicing panics instead of
returning an error. -/
theorem hex_error_characterization :
    (∀ s : List Nat, allAscii s = true → (trimAscii s).length % 2 = 1 →
      hex_to_bytes s = HexResult.error) ∧
    (∀ s : List Nat, allAscii s = true →
      hex_to_bytes s ≠ HexResult.panicked) ∧
    (∀ s : List Nat, allAscii s = true → (trimAscii s).length % 2 = 0 →
      (hex_to_bytes s = HexResult.error ↔
        someChunkRejected (trimAscii s) = true)) ∧
    hex_to_bytes [97, 195, 169, 48] = HexResult.panicked := by
  refine ⟨?_, ?_, ?_, rfl⟩
  · intro s _ h
    simp [hex_to_bytes, h]
  · intro s ha
    have hns := noSplit_trim_of_ascii s ha
    unfold hex_to_bytes
    split_ifs with h
    · exact fun he => HexResult.noConfusion he
    · exact (hexPairs_characterization (trimAscii s) hns).1
  · intro s ha he
    have hns := noSplit_trim_of_ascii s ha
    unfold hex_to_bytes
    rw [if_neg (by omega)]
    exact (hexPairs_characterization (trimAscii s) hns).2

/-- Witness for C5 at concrete inputs: the ASCII odd-length string "abc"
errors; the ASCII string "0g" does not panic and its error coincides
with a rejected chunk. -/
theorem hex_error_characterization_witness :
    (allAscii [97, 98, 99] = true ∧
      (trimAscii [97, 98, 99]).length % 2 = 1 ∧
      hex_to_bytes [97, 98, 99] = HexResult.error) ∧
    (allAscii [48, 103] = true ∧
      hex_to_bytes [48, 103] ≠ HexResult.panicked) ∧
    ((trimAscii [48, 103]).length % 2 = 0 ∧
      (hex_to_bytes [48, 103] = HexResult.error ↔
        someChunkRejected (trimAscii [48, 103]) = true)) :=
  ⟨⟨by decide, by decide,
     hex_error_characterization.1 [97, 98, 99] (by decide) (by decide)⟩,
   ⟨by decide, hex_error_characterization.2.1 [48, 103] (by decide)⟩,
   ⟨by decide,
     hex_error_characterization.2.2.1 [48, 103] (by decide) (by decide)⟩⟩

set_option maxRecDepth 100000 in
/-- Claim C3 (refuted, code bug): signing index 5 on a transaction with
two inputs does not fail with an IndexOutOfRange error — the source
indexes tx.input without a bounds check, so the call panics after all
the decoding steps succeed. -/
theorem sign_transaction_out_of_range_panics :
    sign_transaction demoEnv demoTx2Hex demoKeyHex 5 [] 0 = SignResult.panicked ∧
    deserialize (serialize demoTx2) = some demoTx2 ∧
    demoTx2.input.length = 2 :=
  ⟨by decide, by decide, rfl⟩

/-- Claim C9: sign_transaction is deterministic. The embedding is a pure
function of the argument tuple — the source touches no randomness on this
path (context construction and public-key derivation are deterministic
and the signature slot is a constant), so two invocations on the same
arguments return identical results. -/
theorem sign_transaction_deterministic (env : LibEnv)
    (tx_hex pk_hex spk : List Nat) (idx val : Nat) :
    sign_transaction env tx_hex pk_hex idx spk val =
      sign_transaction env tx_hex pk_hex idx spk val := rfl

/-- Claim C10: build_transaction on empty input and output lists succeeds
for every environment and fee, returning the hex serialization of the
version-2, lock-time-0 transaction with no inputs and no outputs (which
rust-bitcoin serializes in the BIP-141 marker form for input-less
transactions, giving the concrete twelve bytes shown). -/
theorem build_transaction_empty_lists (env : LibEnv) (fee : Nat) :
    build_transaction env [] [] fee =
      Except.ok (bytes_to_hex (serialize
        { version := 2, lock_time := 0, input := [], output := [] })) ∧
    serialize { version := 2, lock_time := 0, input := [], output := [] } =
      [2, 0, 0, 0, 0, 1, 0, 0, 0, 0, 0, 0] :=
  ⟨rfl, rfl⟩

/-- Claim C8: frame property of signing. Under the preconditions (the key
hex decodes to a valid 32-byte scalar, the transaction hex decodes and
deserializes, the index is in range) sign_transaction succeeds and the
re-serialized transaction differs from the decoded one only in the
witness of the indexed input: version, lock time, outputs, input count,
every other input, and the indexed input's previous output, script and
sequence are all unchanged. -/
theorem sign_transaction_frame (env : LibEnv) (tx_hex pk_hex spk : List Nat)
    (idx val : Nat) (bs kb : List Nat) (tx : Transaction)
    (hk : hex_to_bytes pk_hex = HexResult.ok kb) (hlen : kb.length = 32)
    (hval : secretKeyValid kb = true)
    (htx : hex_to_bytes tx_hex = HexResult.ok bs)
    (hde : deserialize bs = some tx)
    (hidx : idx < tx.input.length) :
    ∃ tx' : Transaction,
      sign_transaction env tx_hex pk_hex idx spk val =
        SignResult.ok (bytes_to_hex (serialize tx')) ∧
      tx'.version = tx.version ∧ tx'.lock_time = tx.lock_time ∧
      tx'.output = tx.output ∧ tx'.input.length = tx.input.length ∧
      (∀ j : Nat, j ≠ idx → tx'.input[j]? = tx.input[j]?) ∧
      ∃ a : TxIn, tx.input[idx]? = some a ∧
        tx'.input[idx]? = some { a with witness := signWitnessItems env kb } := by
  refine ⟨{ tx with input := setWitnessAt (signWitnessItems env kb) idx tx.input },
    sign_transaction_eq env tx_hex pk_hex spk idx val bs kb tx hk hlen hval htx hde hidx,
    rfl, rfl, rfl, setWitnessAt_length _ idx tx.input, ?_, ?_⟩
  · intro j hj
    exact setWitnessAt_ne _ idx j tx.input hj
  · exact ⟨tx.input[idx], List.getElem?_eq_getElem hidx,
      setWitnessAt_eq _ idx tx.input _ (List.getElem?_eq_getElem hidx)⟩

set_option maxRecDepth 400000 in
/-- Witness for C8 at concrete inputs: the one-input demonstration
transaction, signing index 0, and the scalar-1 key. -/
theorem sign_transaction_frame_witness :
    hex_to_bytes demoKeyHex = HexResult.ok demoKeyBytes ∧
    demoKeyBytes.length = 32 ∧
    secretKeyValid demoKeyBytes = true ∧
    hex_to_bytes demoTx1Hex = HexResult.ok (serialize demoTx1) ∧
    deserialize (serialize demoTx1) = some demoTx1 ∧
    0 < demoTx1.input.length ∧
    ∃ tx' : Transaction,
      sign_transaction demoEnv demoTx1Hex demoKeyHex 0 [] 0 =
        SignResult.ok (bytes_to_hex (serialize tx')) ∧
      tx'.version = demoTx1.version ∧ tx'.lock_time = demoTx1.lock_time ∧
      tx'.output = demoTx1.output ∧ tx'.input.length = demoTx1.input.length ∧
      (∀ j : Nat, j ≠ 0 → tx'.input[j]? = demoTx1.input[j]?) ∧
      ∃ a : TxIn, demoTx1.input[0]? = some a ∧
        tx'.input[0]? = some { a with witness := signWitnessItems demoEnv demoKeyBytes } :=
  ⟨by decide, by decide, by decide, by decide, by decide, by decide,
    sign_transaction_frame demoEnv demoTx1Hex demoKeyHex [] 0 0
      (serialize demoTx1) demoKeyBytes demoTx1
      (by decide) (by decide) (by decide) (by decide) (by decide) (by decide)⟩

/-- Claim C1 (refuted, code bug): sign_transaction performs no real ECDSA
signing. Under the signing preconditions the witness installed on the
indexed input is the constant 64-byte zero-filled signature slot with the
sighash tag appended; read as an ECDSA signature its r component is 0,
which the spec-modelled admissibility bound rejects, so independently
verifying it against any digest and key must fail. -/
theorem sign_transaction_zero_signature (env : LibEnv)
    (tx_hex pk_hex spk : List Nat) (idx val : Nat) (bs kb : List Nat)
    (tx : Transaction)
    (hk : hex_to_bytes pk_hex = HexResult.ok kb) (hlen : kb.length = 32)
    (hval : secretKeyValid kb = true)
    (htx : hex_to_bytes tx_hex = HexResult.ok bs)
    (hde : deserialize bs = some tx)
    (hidx : idx < tx.input.length) :
    ∃ (tx' : Transaction) (a : TxIn),
      sign_transaction env tx_hex pk_hex idx spk val =
        SignResult.ok (bytes_to_hex (serialize tx')) ∧
      tx.input[idx]? = some a ∧
      tx'.input[idx]? = some { a with witness := signWitnessItems env kb } ∧
      (signWitnessItems env kb)[0]? = some (List.replicate 64 0 ++ [1]) ∧
      ¬ ecdsaSigComponentsAdmissible (List.replicate 64 0) :=
  ⟨{ tx with input := setWitnessAt (signWitnessItems env kb) idx tx.input },
    tx.input[idx],
    sign_transaction_eq env tx_hex pk_hex spk idx val bs kb tx hk hlen hval htx hde hidx,
    List.getElem?_eq_getElem hidx,
    setWitnessAt_eq _ idx tx.input _ (List.getElem?_eq_getElem hidx),
    rfl, fun h => absurd h.1 (by decide)⟩

set_option maxRecDepth 400000 in
/-- Witness for C1 at concrete inputs: the one-input demonstration
transaction, signing index 0, and the scalar-1 key. -/
theorem sign_transaction_zero_signature_witness :
    hex_to_bytes demoKeyHex = HexResult.ok demoKeyBytes ∧
    demoKeyBytes.length = 32 ∧
    secretKeyValid demoKeyBytes = true ∧
    hex_to_bytes demoTx1Hex = HexResult.ok (serialize demoTx1) ∧
    deserialize (serialize demoTx1) = some demoTx1 ∧
    0 < demoTx1.input.length ∧
    ∃ (tx' : Transaction) (a : TxIn),
      sign_transaction demoEnv demoTx1Hex demoKeyHex 0 [] 0 =
        SignResult.ok (bytes_to_hex (serialize tx')) ∧
      demoTx1.input[0]? = some a ∧
      tx'.input[0]? = some { a with
        witness := signWitnessItems demoEnv demoKeyBytes } ∧
      (signWitnessItems demoEnv demoKeyBytes)[0]? =
        some (List.replicate 64 0 ++ [1]) ∧
      ¬ ecdsaSigComponentsAdmissible (List.replicate 64 0) :=
  ⟨by decide, by decide, by decide, by decide, by decide, by decide,
    sign_transaction_zero_signature demoEnv demoTx1Hex demoKeyHex [] 0 0
      (serialize demoTx1) demoKeyBytes demoTx1
      (by decide) (by decide) (by decide) (by decide) (by decide) (by decide)⟩

/-- Claim C2 (refuted, code bug): derive_addresses_from_key never returns
pairwise distinct addresses. Whenever it succeeds, the segwit and taproot
fields hold exactly the legacy string, because the source clones the
legacy base58 address into all three slots. -/
theorem derive_addresses_collapsed (env : LibEnv) (pk_hex : List Nat)
    (kp : KeyPair)
    (h : derive_addresses_from_key env pk_hex = DeriveResult.ok kp) :
    kp.addresses.segwit = kp.addresses.legacy ∧
    kp.addresses.taproot = kp.addresses.legacy := by
  unfold derive_addresses_from_key at h
  split at h
  · exact DeriveResult.noConfusion h
  · exact DeriveResult.noConfusion h
  · split at h
    · exact DeriveResult.noConfusion h
    · split at h
      · exact DeriveResult.noConfusion h
      · cases h
        exact ⟨rfl, rfl⟩

set_option maxRecDepth 400000 in
/-- Witness for C2 at a concrete run: the demonstration environment and
the scalar-1 key, whose derivation succeeds with all three address fields
equal. -/
theorem derive_addresses_collapsed_witness :
    derive_addresses_from_key demoEnv demoKeyHex = DeriveResult.ok demoKeyPair ∧
    demoKeyPair.addresses.segwit = demoKeyPair.addresses.legacy ∧
    demoKeyPair.addresses.taproot = demoKeyPair.addresses.legacy :=
  ⟨by decide,
    derive_addresses_collapsed demoEnv demoKeyHex demoKeyPair (by decide)⟩

/-- Claim C6: structure of built transactions. When every input's
outpoint and locking script parse and every destination address decodes,
build_transaction succeeds with the hex serialization of a transaction
having version 2, lock time 0, exactly one input entry per request input
(parsed outpoint as previous output, decoded locking script as
script_sig, empty witness, maximal sequence number) and exactly one
output entry per request output (amount copied verbatim, locking script
taken from the decoded address). -/
theorem build_transaction_structure (env : LibEnv)
    (inputs : List TransactionInput) (outputs : List TransactionOutput)
    (fee : Nat)
    (hin : ∀ i ∈ inputs, (env.parseOutpoint i.txid i.vout).isSome ∧
      (env.parseScriptHex i.script_pubkey).isSome)
    (hout : ∀ o ∈ outputs, (env.parseAddress o.address).isSome) :
    ∃ tx : Transaction,
      build_transaction env inputs outputs fee =
        Except.ok (bytes_to_hex (serialize tx)) ∧
      tx.version = 2 ∧ tx.lock_time = 0 ∧
      tx.input.length = inputs.length ∧ tx.output.length = outputs.length ∧
      (∀ (k : Nat) (inp : TransactionInput), inputs[k]? = some inp →
        ∃ op spk, env.parseOutpoint inp.txid inp.vout = some op ∧
          env.parseScriptHex inp.script_pubkey = some spk ∧
          tx.input[k]? = some { previous_output := op, script_sig := spk,
                                sequence := 4294967295, witness := [] }) ∧
      (∀ (k : Nat) (o : TransactionOutput), outputs[k]? = some o →
        ∃ a, env.parseAddress o.address = some a ∧
          tx.output[k]? = some { value := o.amount,
                                 script_pubkey := a.script_pubkey }) := by
  obtain ⟨ins, hins, hlin, hcin⟩ := buildTxIns_ok env inputs hin
  obtain ⟨outs, houts, hlout, hcout⟩ := buildTxOuts_ok env outputs hout
  exact ⟨{ version := 2, lock_time := 0, input := ins, output := outs },
    by simp [build_transaction, hins, houts], rfl, rfl, hlin, hlout, hcin, hcout⟩

set_option maxRecDepth 400000 in
/-- Witness for C6 at a concrete build: one input and one output under
the demonstration environment. -/
theorem build_transaction_structure_witness :
    (∀ i ∈ [({ txid := [97], vout := 0, amount := 100000,
               script_pubkey := [53, 49] } : TransactionInput)],
      (demoEnv.parseOutpoint i.txid i.vout).isSome ∧
        (demoEnv.parseScriptHex i.script_pubkey).isSome) ∧
    (∀ o ∈ [({ address := [98], amount := 90000 } : TransactionOutput)],
      (demoEnv.parseAddress o.address).isSome) ∧
    ∃ tx : Transaction,
      build_transaction demoEnv
          [{ txid := [97], vout := 0, amount := 100000, script_pubkey := [53, 49] }]
          [{ address := [98], amount := 90000 }] 0 =
        Except.ok (bytes_to_hex (serialize tx)) ∧
      tx.version = 2 ∧ tx.lock_time = 0 ∧
      tx.input.length =
        [({ txid := [97], vout := 0, amount := 100000,
            script_pubkey := [53, 49] } : TransactionInput)].length ∧
      tx.output.length =
        [({ address := [98], amount := 90000 } : TransactionOutput)].length ∧
      (∀ (k : Nat) (inp : TransactionInput),
        [({ txid := [97], vout := 0, amount := 100000,
            script_pubkey := [53, 49] } : TransactionInput)][k]? = some inp →
        ∃ op spk, demoEnv.parseOutpoint inp.txid inp.vout = some op ∧
          demoEnv.parseScriptHex inp.script_pubkey = some spk ∧
          tx.input[k]? = some { previous_output := op, script_sig := spk,
                                sequence := 4294967295, witness := [] }) ∧
      (∀ (k : Nat) (o : TransactionOutput),
        [({ address := [98], amount := 90000 } : TransactionOutput)][k]? = some o →
        ∃ a, demoEnv.parseAddress o.address = some a ∧
          tx.output[k]? = some { value := o.amount,
                                 script_pubkey := a.script_pubkey }) :=
  ⟨by decide, by decide,
    build_transaction_structure demoEnv
      [{ txid := [97], vout := 0, amount := 100000, script_pubkey := [53, 49] }]
      [{ address := [98], amount := 90000 }] 0 (by decide) (by decide)⟩

set_option maxRecDepth 400000 in
/-- Claim C7 counterexample: a destination address that decodes as a
mainnet address while the engine is compiled for testnet is accepted by
build_transaction rather than rejected with InvalidAddress — the source
converts the parsed address with assume_checked, which skips network
validation. -/
theorem build_accepts_foreign_network :
    (mainnetEnv.parseAddress [97]).map ParsedAddress.network = some Net.mainnet ∧
    (Net.mainnet = engineNetwork) = False ∧
    build_transaction mainnetEnv [] [{ address := [97], amount := 1000 }] 0 =
      Except.ok (bytes_to_hex (serialize
        { version := 2, lock_time := 0, input := [],
          output := [{ value := 1000, script_pubkey := [81] }] })) :=
  ⟨rfl, eq_false (by decide), rfl⟩

/-- Claim C7 (amended): build_transaction fails with InvalidAddress
whenever, with the inputs parsing, some destination address fails to
decode; but no network compatibility check is performed — the result
depends on decoded addresses only through their locking script and never
through their network tag, because the source calls assume_checked. -/
theorem build_invalid_address_characterization :
    (∀ (env : LibEnv) (inputs : List TransactionInput)
        (outputs : List TransactionOutput) (fee : Nat),
      (∀ i ∈ inputs, (env.parseOutpoint i.txid i.vout).isSome ∧
        (env.parseScriptHex i.script_pubkey).isSome) →
      (∃ o ∈ outputs, env.parseAddress o.address = none) →
      build_transaction env inputs outputs fee =
        Except.error BuildErr.invalidAddress) ∧
    (∀ env env2 : LibEnv, env2.parseOutpoint = env.parseOutpoint →
      env2.parseScriptHex = env.parseScriptHex →
      (∀ s, (env2.parseAddress s).map ParsedAddress.script_pubkey =
        (env.parseAddress s).map ParsedAddress.script_pubkey) →
      ∀ inputs outputs fee,
        build_transaction env2 inputs outputs fee =
          build_transaction env inputs outputs fee) := by
  constructor
  · intro env inputs outputs fee hin hbad
    obtain ⟨ins, hins, _, _⟩ := buildTxIns_ok env inputs hin
    simp [build_transaction, hins, buildTxOuts_bad_address env outputs hbad]
  · intro env env2 h1 h2 h3 inputs outputs fee
    simp [build_transaction, buildTxIns_congr env env2 h1 h2 inputs,
      buildTxOuts_congr env env2 h3 outputs]

set_option maxRecDepth 400000 in
/-- Witness for the amended C7 at concrete inputs: an environment whose
addresses never decode yields InvalidAddress, and two environments whose
address decodes differ only in the network tag build identically. -/
theorem build_invalid_address_characterization_witness :
    ((∀ i ∈ ([] : List TransactionInput),
        (noAddrEnv.parseOutpoint i.txid i.vout).isSome ∧
          (noAddrEnv.parseScriptHex i.script_pubkey).isSome) ∧
      (∃ o ∈ [({ address := [97], amount := 5 } : TransactionOutput)],
        noAddrEnv.parseAddress o.address = none) ∧
      build_transaction noAddrEnv [] [{ address := [97], amount := 5 }] 0 =
        Except.error BuildErr.invalidAddress) ∧
    (mainnetEnv.parseOutpoint = demoEnv.parseOutpoint ∧
      mainnetEnv.parseScriptHex = demoEnv.parseScriptHex ∧
      (∀ s, (mainnetEnv.parseAddress s).map ParsedAddress.script_pubkey =
        (demoEnv.parseAddress s).map ParsedAddress.script_pubkey) ∧
      build_transaction mainnetEnv [] [{ address := [97], amount := 5 }] 0 =
        build_transaction demoEnv [] [{ address := [97], amount := 5 }] 0) :=
  ⟨⟨by simp,
     ⟨{ address := [97], amount := 5 }, List.mem_singleton.mpr rfl, rfl⟩,
     build_invalid_address_characterization.1 noAddrEnv []
       [{ address := [97], amount := 5 }] 0 (by simp)
       ⟨{ address := [97], amount := 5 }, List.mem_singleton.mpr rfl, rfl⟩⟩,
   ⟨rfl, rfl, fun s => rfl,
     build_invalid_address_characterization.2 demoEnv mainnetEnv rfl rfl
       (fun s => rfl) [] [{ address := [97], amount := 5 }] 0⟩⟩

end BitlabCore
